import Mathlib

/-!
Shallow embedding of `pyhanko/pdf_utils/content.py`.

PDF dictionary objects (`DictionaryObject` from the external primitive object
model) are modelled as association lists from names (strings) to values,
preserving insertion order, which is the iteration order of Python dicts.
Resource values are opaque: everything is parametrised by a value type `V`.
Bytes are modelled as lists of naturals.
-/

/-- A `DictionaryObject`: an insertion-ordered mapping from names to values. -/
abbrev DictObj (V : Type) := List (String × V)

/-- Python `k in d` for a dictionary: membership of the key. -/
def hasKey {V : Type} (d : DictObj V) (k : String) : Bool :=
  d.any (fun p => p.1 == k)

/-- Lookup of a key in a dictionary (first occurrence). -/
def dictGet? {V : Type} (d : DictObj V) (k : String) : Option V :=
  (d.find? (fun p => p.1 == k)).map Prod.snd

/-- Python `d[k] = v`: overwrite in place when `k` is present (keeping its
position, as Python dicts do), append otherwise. -/
def dictSet {V : Type} (d : DictObj V) (k : String) (v : V) : DictObj V :=
  if hasKey d k then d.map (fun p => if p.1 == k then (k, v) else p)
  else d ++ [(k, v)]

/-- The keys of a dictionary, in order. -/
def dictKeys {V : Type} (d : DictObj V) : List String := d.map Prod.fst

/-- `ResourceType`: enum listing resources that can be used as keys in a
resource dictionary (ISO 32000-1, § 7.8.3 Table 34). Declaration order is the
enum's iteration order. -/
inductive ResourceType where
  | EXT_G_STATE
  | COLOR_SPACE
  | PATTERN
  | SHADING
  | XOBJECT
  | FONT
  | PROPERTIES
deriving DecidableEq, Repr, Fintype

/-- The `pdf_name` value carried by each `ResourceType` member. -/
def ResourceType.value : ResourceType → String
  | .EXT_G_STATE => "/ExtGState"
  | .COLOR_SPACE => "/ColorSpace"
  | .PATTERN => "/Pattern"
  | .SHADING => "/Shading"
  | .XOBJECT => "/XObject"
  | .FONT => "/Font"
  | .PROPERTIES => "/Properties"

/-- Iteration order of `for k in ResourceType`: the declaration order of the
enum members. -/
def resourceTypeList : List ResourceType :=
  [.EXT_G_STATE, .COLOR_SPACE, .PATTERN, .SHADING, .XOBJECT, .FONT, .PROPERTIES]

/-- The message of the `ResourceManagementError` raised by
`_res_merge_helper` on a name conflict.  The exception subclasses `ValueError`
and carries nothing besides this message string. -/
def conflictMessage (k : String) : String :=
  "Resource with name " ++ k ++ " occurs in both dictionaries."

/-- `_res_merge_helper(dict1, dict2)`: iterate over `dict2`'s items in order;
on a key already present in `dict1` raise `ResourceManagementError`, otherwise
insert the pair into `dict1`.  The first component of the result is the state
of `dict1` when the function returns or raises (Python mutates `dict1` in
place, so insertions made before a conflict persist); the second is the raised
error's message, `none` on success. -/
def res_merge_helper {V : Type} : DictObj V → DictObj V → DictObj V × Option String
  | dict1, [] => (dict1, none)
  | dict1, (k, v2) :: rest =>
    if hasKey dict1 k then (dict1, some (conflictMessage k))
    else res_merge_helper (dict1 ++ [(k, v2)]) rest

/-- `PdfResources`: one `DictionaryObject` per resource category.
`__init__` creates every field as a fresh empty dictionary. -/
structure PdfResources (V : Type) where
  ext_g_state : DictObj V
  color_space : DictObj V
  pattern : DictObj V
  shading : DictObj V
  xobject : DictObj V
  font : DictObj V
  properties : DictObj V
deriving DecidableEq, Repr

namespace PdfResources

/-- A freshly constructed `PdfResources` (`__init__`): every category's
mapping is a fresh empty `DictionaryObject`. -/
def new {V : Type} : PdfResources V :=
  ⟨[], [], [], [], [], [], []⟩

/-- `__getitem__(item)`: `getattr(self, item.name.lower())`, the per-category
mapping selected by the enum member. -/
def get {V : Type} (self : PdfResources V) : ResourceType → DictObj V
  | .EXT_G_STATE => self.ext_g_state
  | .COLOR_SPACE => self.color_space
  | .PATTERN => self.pattern
  | .SHADING => self.shading
  | .XOBJECT => self.xobject
  | .FONT => self.font
  | .PROPERTIES => self.properties

/-- In-place replacement of one category's mapping (the effect of mutating the
dictionary returned by `__getitem__`). -/
def set {V : Type} (self : PdfResources V) : ResourceType → DictObj V → PdfResources V
  | .EXT_G_STATE, d => { self with ext_g_state := d }
  | .COLOR_SPACE, d => { self with color_space := d }
  | .PATTERN, d => { self with pattern := d }
  | .SHADING, d => { self with shading := d }
  | .XOBJECT, d => { self with xobject := d }
  | .FONT, d => { self with font := d }
  | .PROPERTIES, d => { self with properties := d }

/-- `as_pdf_object()`: iterate the categories in enum order, yielding
`(k.value, self[k])` for every category whose mapping is non-empty (Python
truthiness of a dictionary), and collect the pairs into a fresh
`DictionaryObject`. -/
def as_pdf_object {V : Type} (self : PdfResources V) : DictObj (DictObj V) :=
  resourceTypeList.filterMap (fun k =>
    let val := self.get k
    if val.isEmpty then none else some (k.value, val))

/-- The category-by-category loop of `__iadd__` over a list of categories:
for each category run `_res_merge_helper(self[k], other[k])`; the helper
mutates `self[k]` in place, and a raised error aborts the loop with the
partially merged state. -/
def iaddAux {V : Type} :
    List ResourceType → PdfResources V → PdfResources V →
    PdfResources V × Option String
  | [], self, _ => (self, none)
  | k :: rest, self, other =>
    match res_merge_helper (self.get k) (other.get k) with
    | (d1, none) => iaddAux rest (self.set k d1) other
    | (d1, some e) => (self.set k d1, some e)

/-- `__iadd__(other)`: merge another resource dictionary into this one,
category by category in enum order.  The first component is the state of
`self` when the method returns or raises; the second is the raised
`ResourceManagementError`'s message, `none` on success.  `other` is only ever
read (`_res_merge_helper` assigns exclusively into its first argument), so it
is unmodified. -/
def iadd {V : Type} (self other : PdfResources V) : PdfResources V × Option String :=
  iaddAux resourceTypeList self other

end PdfResources

/-- `BoxConstraints`, from `pyhanko.pdf_utils.misc` (an external collaborator,
not part of this excerpt).  Modelled from the spec: a bounding box exposing
non-negative `width` and `height`. -/
structure BoxConstraints where
  width : Nat
  height : Nat
deriving DecidableEq, Repr

/-- The form XObject produced by `init_xobject_dictionary`: a
`StreamObject` holding the command stream and the form's dictionary data. -/
structure StreamObject (V : Type) where
  command_stream : List Nat
  box_width : Nat
  box_height : Nat
  stream_resources : DictObj (DictObj V)
deriving DecidableEq, Repr

/-- Modelled from the spec: `init_xobject_dictionary` lives in
`pyhanko.pdf_utils.writer`, which is not in this excerpt.  Per the spec (§6),
the external writer component exposes one operation: given a command-stream
byte buffer, a width, a height, and an exported resource dictionary, produce
a stream object representing the reusable/embeddable form XObject. -/
def init_xobject_dictionary {V : Type} (command_stream : List Nat)
    (box_width box_height : Nat) (resources : DictObj (DictObj V)) :
    StreamObject V :=
  ⟨command_stream, box_width, box_height, resources⟩

/-- The external calls a `PdfContent` method can make, logged as a trace:
a call to `self.render()`, a call to the writer module's
`init_xobject_dictionary` constructor (with the arguments passed), or a
registration of an object with the attached writer.  The source of
`as_form_xobject` contains no registration call; the constructor is listed so
that its absence is expressible. -/
inductive ExtCall (V : Type) where
  | renderCall
  | initXObjectDictionaryCall (command_stream : List Nat)
      (box_width box_height : Nat) (resources : DictObj (DictObj V))
  | registerWithWriterCall
deriving DecidableEq

/-- `PdfContent`: abstract representation of part of a PDF content stream.
Owns a `PdfResources` (field `_resources`), a box, and an optional `writer`
reference (default `None`).  The writer is modelled as an opaque handle. -/
structure PdfContent (V : Type) where
  res : PdfResources V
  box : BoxConstraints
  writer : Option Nat
deriving DecidableEq, Repr

namespace PdfContent

/-- `__init__(resources, box, writer)`: `resources or PdfResources()` — a
fresh empty `PdfResources` when the argument is absent.  (The analogous
`box or BoxConstraints()` default constructs an unconstrained box of the
external geometry type; no claim exercises it, so the box is passed
explicitly.) -/
def new {V : Type} (resources : Option (PdfResources V)) (box : BoxConstraints)
    (writer : Option Nat) : PdfContent V :=
  { res := resources.getD PdfResources.new, box := box, writer := writer }

/-- The `resources` read accessor: returns `self._resources`. -/
def resources {V : Type} (self : PdfContent V) : PdfResources V := self.res

/-- `set_resource(category, name, value)`:
`self._resources[category][name] = value`. -/
def set_resource {V : Type} (self : PdfContent V) (category : ResourceType)
    (name : String) (value : V) : PdfContent V :=
  { self with
    res := self.res.set category (dictSet (self.res.get category) name value) }

/-- `import_resources(resources)`: `self._resources += resources`.  The first
component is the state of `self` when the method returns or raises; the
second is the propagated `ResourceManagementError`'s message, `none` on
success. -/
def import_resources {V : Type} (self : PdfContent V)
    (resources : PdfResources V) : PdfContent V × Option String :=
  let r := self.res.iadd resources
  ({ self with res := r.1 }, r.2)

/-- Errors a render can signal.  The base class's `render` always raises
`NotImplementedError`. -/
inductive RenderError where
  | notImplementedError
deriving DecidableEq, Repr

/-- `PdfContent.render()`: the abstract base implementation, which
unconditionally raises `NotImplementedError`. -/
def render {V : Type} (_self : PdfContent V) : Except RenderError (List Nat) :=
  .error .notImplementedError

/-- `as_form_xobject()`:
`command_stream = self.render()` followed by
`return init_xobject_dictionary(command_stream, box.width, box.height,
self._resources.as_pdf_object())`.  `rendered` is the value the fragment's
(polymorphic) `render` call produces.  Alongside the returned `StreamObject`
the embedding logs the trace of external calls the body makes: one render
call and one constructor call, and nothing else — in particular no
registration with `self.writer`. -/
def as_form_xobject {V : Type} (self : PdfContent V) (rendered : List Nat) :
    StreamObject V × List (ExtCall V) :=
  let command_stream := rendered
  (init_xobject_dictionary command_stream self.box.width self.box.height
      self.res.as_pdf_object,
   [ExtCall.renderCall,
    ExtCall.initXObjectDictionaryCall command_stream self.box.width
      self.box.height self.res.as_pdf_object])

/-- `set_writer(writer)`: `self.writer = writer`. -/
def set_writer {V : Type} (self : PdfContent V) (writer : Nat) : PdfContent V :=
  { self with writer := some writer }

end PdfContent

/-- `RawContent`: a `PdfContent` that wraps a pre-rendered byte buffer.
`__init__(data, resources, box)` calls `super().__init__(resources, box)`
(so `writer` is `None`) and stores `data`. -/
structure RawContent (V : Type) extends PdfContent V where
  data : List Nat
deriving DecidableEq, Repr

namespace RawContent

/-- `RawContent.__init__(data, resources, box)`. -/
def new {V : Type} (data : List Nat) (resources : Option (PdfResources V))
    (box : BoxConstraints) : RawContent V :=
  { toPdfContent := PdfContent.new resources box none, data := data }

/-- `RawContent.render()`: `return self.data`.  The state-passing form makes
the absence of mutation explicit: the returned object is the receiver
itself. -/
def render {V : Type} (self : RawContent V) : List Nat × RawContent V :=
  (self.data, self)

/-- The outputs of `n` successive `render()` calls on the same object,
threading the (unchanged) object state through the calls. -/
def renderRepeated {V : Type} : RawContent V → Nat → List (List Nat) × RawContent V
  | self, 0 => ([], self)
  | self, n + 1 =>
    let r := self.render
    let rest := renderRepeated r.2 n
    (r.1 :: rest.1, rest.2)

end RawContent

/-! ## Concrete example dictionaries (used to instantiate the theorems) -/

/-- Example: two font entries. -/
def exA : PdfResources Nat :=
  (PdfResources.new).set .FONT [("x", 1), ("y", 2)]

/-- Example: a colour space entry and three font entries, the middle font
name colliding with `exA`. -/
def exB : PdfResources Nat :=
  ((PdfResources.new).set .COLOR_SPACE [("c", 5)]).set .FONT
    [("a", 9), ("x", 3), ("z", 4)]

/-- Example: disjoint from `exA` in every category. -/
def exD : PdfResources Nat :=
  ((PdfResources.new).set .FONT [("z", 7)]).set .PATTERN [("p", 1)]

/-- Example: one graphics state entry named `x`. -/
def exE1 : PdfResources Nat :=
  (PdfResources.new).set .EXT_G_STATE [("x", 1)]

/-- Example: one graphics state entry named `x` (colliding with `exE1`). -/
def exE2 : PdfResources Nat :=
  (PdfResources.new).set .EXT_G_STATE [("x", 2)]

/-- Example: one font entry named `x`. -/
def exF1 : PdfResources Nat :=
  (PdfResources.new).set .FONT [("x", 1)]

/-- Example: one font entry named `x` (colliding with `exF1`). -/
def exF2 : PdfResources Nat :=
  (PdfResources.new).set .FONT [("x", 2)]

/-- Example: a graphics state entry and a colour space entry. -/
def exG : PdfResources Nat :=
  ((PdfResources.new).set .EXT_G_STATE [("g0", 1)]).set .COLOR_SPACE [("c", 2)]

/-- Example: a fresh graphics state entry and a colour space entry colliding
with `exG`. -/
def exH : PdfResources Nat :=
  ((PdfResources.new).set .EXT_G_STATE [("g1", 3)]).set .COLOR_SPACE [("c", 4)]

/-! ## Dictionary lemmas -/

theorem hasKey_append {V : Type} (d1 d2 : DictObj V) (k : String) :
    hasKey (d1 ++ d2) k = (hasKey d1 k || hasKey d2 k) := by
  simp [hasKey]

theorem hasKey_nil {V : Type} (k : String) : hasKey ([] : DictObj V) k = false := rfl

theorem hasKey_cons {V : Type} (a : String) (b : V) (d : DictObj V) (k : String) :
    hasKey ((a, b) :: d) k = ((a == k) || hasKey d k) := by
  simp [hasKey]

theorem dictGet?_cons {V : Type} (a : String) (b : V) (d : DictObj V) (k : String) :
    dictGet? ((a, b) :: d) k = if a == k then some b else dictGet? d k := by
  simp only [dictGet?, List.find?]
  split <;> simp_all

theorem dictKeys_cons {V : Type} (a : String) (b : V) (d : DictObj V) :
    dictKeys ((a, b) :: d) = a :: dictKeys d := rfl

theorem dictKeys_append {V : Type} (d1 d2 : DictObj V) :
    dictKeys (d1 ++ d2) = dictKeys d1 ++ dictKeys d2 := by
  simp [dictKeys]

theorem hasKey_of_mem_keys {V : Type} (d : DictObj V) (k : String)
    (h : k ∈ dictKeys d) : hasKey d k = true := by
  induction d with
  | nil => simp [dictKeys] at h
  | cons p tl ih =>
    obtain ⟨a, b⟩ := p
    rw [hasKey_cons]
    rw [dictKeys_cons] at h
    rcases List.mem_cons.mp h with h1 | h2
    · simp [h1]
    · simp [ih h2]

theorem mem_keys_of_hasKey {V : Type} (d : DictObj V) (k : String)
    (h : hasKey d k = true) : k ∈ dictKeys d := by
  induction d with
  | nil => simp [hasKey] at h
  | cons p tl ih =>
    obtain ⟨a, b⟩ := p
    rw [hasKey_cons] at h
    rw [dictKeys_cons]
    rcases Bool.or_eq_true_iff.mp h with h1 | h2
    · exact List.mem_cons.mpr (Or.inl (by simpa using (beq_iff_eq.mp h1).symm))
    · exact List.mem_cons.mpr (Or.inr (ih h2))

/-! ## Lemmas about `_res_merge_helper` -/

/-- When no key of `dict2` occurs in `dict1` (and `dict2` has no duplicate
keys, as a Python dict cannot), the helper succeeds and appends all of
`dict2`'s items to `dict1` in order. -/
theorem res_merge_helper_disjoint {V : Type} (d1 d2 : DictObj V)
    (hnd : (dictKeys d2).Nodup)
    (hdisj : ∀ p ∈ d2, hasKey d1 p.1 = false) :
    res_merge_helper d1 d2 = (d1 ++ d2, none) := by
  induction d2 generalizing d1 with
  | nil => simp [res_merge_helper]
  | cons hd tl ih =>
    obtain ⟨k, v⟩ := hd
    have hk : hasKey d1 k = false := hdisj (k, v) (List.mem_cons_self _ _)
    rw [res_merge_helper, hk]
    simp only [Bool.false_eq_true, if_false]
    rw [dictKeys_cons] at hnd
    have hknot : k ∉ dictKeys tl := (List.nodup_cons.mp hnd).1
    have htl : res_merge_helper (d1 ++ [(k, v)]) tl = ((d1 ++ [(k, v)]) ++ tl, none) := by
      refine ih _ ((List.nodup_cons.mp hnd).2) ?_
      intro p hp
      rw [hasKey_append, hdisj p (List.mem_cons_of_mem _ hp)]
      have : p.1 ≠ k := by
        intro hcontra
        exact hknot (hcontra ▸ List.mem_map_of_mem Prod.fst hp)
      simp [hasKey, Ne.symm this]
    rw [htl, List.append_assoc]
    rfl

/-- When some key of `dict2` occurs in `dict1`, the helper raises. -/
theorem res_merge_helper_conflict {V : Type} (d1 d2 : DictObj V)
    (h : ∃ p ∈ d2, hasKey d1 p.1 = true) :
    (res_merge_helper d1 d2).2.isSome = true := by
  induction d2 generalizing d1 with
  | nil => simp at h
  | cons hd tl ih =>
    obtain ⟨k, v⟩ := hd
    by_cases hk : hasKey d1 k = true
    · rw [res_merge_helper, hk]
      simp
    · rw [res_merge_helper]
      simp only [hk, Bool.false_eq_true, if_false]
      apply ih
      obtain ⟨p, hp, hkey⟩ := h
      rcases List.mem_cons.mp hp with h1 | h2
      · subst h1
        simp only at hkey
        exact absurd hkey hk
      · exact ⟨p, h2, by rw [hasKey_append, hkey]; rfl⟩

/-- The exact behaviour at the first conflicting item: every item iterated
before it has been inserted into `dict1`, and the raised error's message names
the conflicting key. -/
theorem res_merge_helper_at_conflict {V : Type} (d1 : DictObj V) (d2a : DictObj V)
    (k : String) (v : V) (d2b : DictObj V)
    (hnd : (dictKeys d2a).Nodup)
    (hclean : ∀ p ∈ d2a, hasKey d1 p.1 = false)
    (hk : hasKey (d1 ++ d2a) k = true) :
    res_merge_helper d1 (d2a ++ (k, v) :: d2b) = (d1 ++ d2a, some (conflictMessage k)) := by
  induction d2a generalizing d1 with
  | nil =>
    rw [List.append_nil] at hk
    rw [List.nil_append, res_merge_helper, hk]
    simp
  | cons hd tl ih =>
    obtain ⟨k0, v0⟩ := hd
    have hk0 : hasKey d1 k0 = false := hclean (k0, v0) (List.mem_cons_self _ _)
    rw [List.cons_append, res_merge_helper, hk0]
    simp only [Bool.false_eq_true, if_false]
    rw [dictKeys_cons] at hnd
    have hknot : k0 ∉ dictKeys tl := (List.nodup_cons.mp hnd).1
    have htl : res_merge_helper (d1 ++ [(k0, v0)]) (tl ++ (k, v) :: d2b)
        = ((d1 ++ [(k0, v0)]) ++ tl, some (conflictMessage k)) := by
      refine ih _ ((List.nodup_cons.mp hnd).2) ?_ ?_
      · intro p hp
        rw [hasKey_append, hclean p (List.mem_cons_of_mem _ hp)]
        have : p.1 ≠ k0 := by
          intro hcontra
          exact hknot (hcontra ▸ List.mem_map_of_mem Prod.fst hp)
        simp [hasKey, Ne.symm this]
      · rw [List.append_assoc]
        simpa using hk
    rw [htl, List.append_assoc]
    rfl

/-- A raised error's message always is `conflictMessage k` for some key `k`
of `dict2`. -/
theorem res_merge_helper_error_shape {V : Type} (d1 d2 : DictObj V) (e : String)
    (h : (res_merge_helper d1 d2).2 = some e) :
    ∃ k ∈ dictKeys d2, e = conflictMessage k := by
  induction d2 generalizing d1 with
  | nil => simp [res_merge_helper] at h
  | cons hd tl ih =>
    obtain ⟨k, v⟩ := hd
    by_cases hk : hasKey d1 k = true
    · rw [res_merge_helper, hk] at h
      simp at h
      exact ⟨k, by simp [dictKeys_cons], h.symm⟩
    · rw [res_merge_helper] at h
      simp only [hk, Bool.false_eq_true, if_false] at h
      obtain ⟨k1, hk1, he⟩ := ih _ h
      exact ⟨k1, by simp [dictKeys_cons, hk1], he⟩

/-- The error message determines the offending name. -/
theorem conflictMessage_injective (k k1 : String)
    (h : conflictMessage k = conflictMessage k1) : k = k1 := by
  unfold conflictMessage at h
  have hd := congrArg String.data h
  simp only [String.data_append] at hd
  have h1 : ("Resource with name ").data ++ k.data
      = ("Resource with name ").data ++ k1.data :=
    List.append_cancel_right hd
  have h2 : k.data = k1.data := List.append_cancel_left h1
  exact String.ext h2

/-! ## Category lookup lemmas -/

theorem get_set_same {V : Type} (r : PdfResources V) (c : ResourceType) (d : DictObj V) :
    (r.set c d).get c = d := by
  cases c <;> rfl

theorem get_set_ne {V : Type} (r : PdfResources V) (c c1 : ResourceType) (d : DictObj V)
    (h : c1 ≠ c) : (r.set c d).get c1 = r.get c1 := by
  cases c <;> cases c1 <;> first | exact absurd rfl h | rfl

theorem mem_resourceTypeList (c : ResourceType) : c ∈ resourceTypeList := by
  cases c <;> simp [resourceTypeList]

theorem resourceTypeList_nodup : resourceTypeList.Nodup := by decide

theorem value_injective (c c1 : ResourceType) (h : c.value = c1.value) : c = c1 := by
  revert h
  revert c c1
  decide

/-! ## Lemmas about the `__iadd__` loop -/

/-- Processing a run of categories in which `other` does not collide with
`self`: the loop reaches the remaining categories with every processed
category's mapping extended by `other`'s items and every other category
untouched. -/
theorem iaddAux_clean_front {V : Type} (cats rest : List ResourceType)
    (self other : PdfResources V)
    (hnd : cats.Nodup)
    (hkeys : ∀ cat ∈ cats, (dictKeys (other.get cat)).Nodup)
    (hdisj : ∀ cat ∈ cats, ∀ p ∈ other.get cat, hasKey (self.get cat) p.1 = false) :
    ∃ self1 : PdfResources V,
      PdfResources.iaddAux (cats ++ rest) self other = PdfResources.iaddAux rest self1 other ∧
      (∀ cat ∈ cats, self1.get cat = self.get cat ++ other.get cat) ∧
      (∀ cat, cat ∉ cats → self1.get cat = self.get cat) := by
  induction cats generalizing self with
  | nil =>
    exact ⟨self, rfl, by simp, fun _ _ => rfl⟩
  | cons c0 tl ih =>
    have hc0nd : c0 ∉ tl := (List.nodup_cons.mp hnd).1
    have hmerge : res_merge_helper (self.get c0) (other.get c0)
        = (self.get c0 ++ other.get c0, none) :=
      res_merge_helper_disjoint _ _ (hkeys c0 (List.mem_cons_self _ _))
        (hdisj c0 (List.mem_cons_self _ _))
    have hstep : PdfResources.iaddAux ((c0 :: tl) ++ rest) self other
        = PdfResources.iaddAux (tl ++ rest)
            (self.set c0 (self.get c0 ++ other.get c0)) other := by
      rw [List.cons_append, PdfResources.iaddAux, hmerge]
    obtain ⟨self1, heq, hmer, hunch⟩ :=
      ih (self.set c0 (self.get c0 ++ other.get c0))
        ((List.nodup_cons.mp hnd).2)
        (fun cat hcat => hkeys cat (List.mem_cons_of_mem _ hcat))
        (fun cat hcat => by
          have hne : cat ≠ c0 := fun hcc => hc0nd (hcc ▸ hcat)
          rw [get_set_ne self c0 cat (self.get c0 ++ other.get c0) hne]
          exact hdisj cat (List.mem_cons_of_mem _ hcat))
    refine ⟨self1, hstep.trans heq, ?_, ?_⟩
    · intro cat hcat
      rcases List.mem_cons.mp hcat with h1 | h2
      · subst h1
        rw [hunch cat hc0nd, get_set_same]
      · have hne : cat ≠ c0 := fun hcc => hc0nd (hcc ▸ h2)
        rw [hmer cat h2, get_set_ne self c0 cat (self.get c0 ++ other.get c0) hne]
    · intro cat hcat
      have hcat0 : cat ≠ c0 := fun hcc => hcat (hcc ▸ List.mem_cons_self _ _)
      have hcattl : cat ∉ tl := fun hmem => hcat (List.mem_cons_of_mem _ hmem)
      rw [hunch cat hcattl, get_set_ne self c0 cat (self.get c0 ++ other.get c0) hcat0]

/-- A raised error's message, wherever the loop raises it, names a key of one
of `other`'s mappings. -/
theorem iaddAux_error_shape {V : Type} (cats : List ResourceType)
    (self other : PdfResources V) (e : String)
    (h : (PdfResources.iaddAux cats self other).2 = some e) :
    ∃ cat ∈ cats, ∃ k ∈ dictKeys (other.get cat), e = conflictMessage k := by
  induction cats generalizing self with
  | nil => simp [PdfResources.iaddAux] at h
  | cons c0 tl ih =>
    rw [PdfResources.iaddAux] at h
    rcases hm : res_merge_helper (self.get c0) (other.get c0) with ⟨d1, oe⟩
    rw [hm] at h
    cases oe with
    | none =>
      simp only at h
      obtain ⟨cat, hcat, k, hk, he⟩ := ih _ h
      exact ⟨cat, List.mem_cons_of_mem _ hcat, k, hk, he⟩
    | some e0 =>
      simp only [Option.some.injEq] at h
      obtain ⟨k, hk, he⟩ := res_merge_helper_error_shape _ _ e0 (by rw [hm])
      exact ⟨c0, List.mem_cons_self _ _, k, hk, h ▸ he⟩

/-- A name conflict in any category of the run forces the loop to raise:
either an earlier category raises first, or the loop reaches the conflicting
category with its mapping of `self` untouched (the categories are distinct)
and `_res_merge_helper` raises there. -/
theorem iaddAux_conflict_raises {V : Type} (cats : List ResourceType)
    (self other : PdfResources V)
    (hnd : cats.Nodup)
    (hconf : ∃ cat ∈ cats, ∃ p ∈ other.get cat, hasKey (self.get cat) p.1 = true) :
    (PdfResources.iaddAux cats self other).2.isSome = true := by
  induction cats generalizing self with
  | nil => simp at hconf
  | cons c0 tl ih =>
    rw [PdfResources.iaddAux]
    rcases hm : res_merge_helper (self.get c0) (other.get c0) with ⟨d1, oe⟩
    cases oe with
    | some e0 => simp
    | none =>
      simp only
      obtain ⟨cat, hcat, p, hp, hkey⟩ := hconf
      rcases List.mem_cons.mp hcat with h1 | h2
      · subst h1
        have := res_merge_helper_conflict (self.get cat) (other.get cat) ⟨p, hp, hkey⟩
        rw [hm] at this
        simp at this
      · refine ih _ ((List.nodup_cons.mp hnd).2) ?_
        have hne : cat ≠ c0 := fun hcc => (List.nodup_cons.mp hnd).1 (hcc ▸ h2)
        refine ⟨cat, h2, p, hp, ?_⟩
        rw [get_set_ne self c0 cat d1 hne]
        exact hkey

/-! ## Lemmas about `dictSet` -/

theorem dictGet?_map_overwrite {V : Type} (d : DictObj V) (k : String) (v : V)
    (hk : hasKey d k = true) :
    dictGet? (d.map (fun p => if p.1 == k then (k, v) else p)) k = some v := by
  induction d with
  | nil => simp [hasKey] at hk
  | cons p tl ih =>
    obtain ⟨a, b⟩ := p
    by_cases ha : a = k
    · subst ha
      simp only [List.map_cons, beq_self_eq_true, if_true]
      rw [dictGet?_cons]
      simp
    · rw [hasKey_cons] at hk
      have hane : (a == k) = false := beq_eq_false_iff_ne.mpr ha
      rw [hane] at hk
      simp only [List.map_cons, hane, Bool.false_eq_true, if_false]
      rw [dictGet?_cons, hane]
      simpa using ih (by simpa using hk)

theorem dictGet?_map_other {V : Type} (d : DictObj V) (k : String) (v : V) (n : String)
    (hn : n ≠ k) :
    dictGet? (d.map (fun p => if p.1 == k then (k, v) else p)) n = dictGet? d n := by
  induction d with
  | nil => rfl
  | cons p tl ih =>
    obtain ⟨a, b⟩ := p
    by_cases ha : a = k
    · subst ha
      have hkn : (a == n) = false := beq_eq_false_iff_ne.mpr (fun hc => hn hc.symm)
      simp only [List.map_cons, beq_self_eq_true, if_true]
      rw [dictGet?_cons, dictGet?_cons, hkn]
      simpa using ih
    · have hane : (a == k) = false := beq_eq_false_iff_ne.mpr ha
      simp only [List.map_cons, hane, Bool.false_eq_true, if_false]
      rw [dictGet?_cons, dictGet?_cons]
      split
      · rfl
      · exact ih

theorem dictGet?_append_single {V : Type} (d : DictObj V) (k : String) (v : V)
    (n : String) (hn : n ≠ k) :
    dictGet? (d ++ [(k, v)]) n = dictGet? d n := by
  induction d with
  | nil =>
    rw [List.nil_append]
    rw [dictGet?_cons, beq_eq_false_iff_ne.mpr (fun hc => hn hc.symm)]
    simp [dictGet?]
  | cons p tl ih =>
    obtain ⟨a, b⟩ := p
    rw [List.cons_append, dictGet?_cons, dictGet?_cons]
    split
    · rfl
    · exact ih

theorem dictGet?_append_single_self {V : Type} (d : DictObj V) (k : String) (v : V)
    (hk : hasKey d k = false) :
    dictGet? (d ++ [(k, v)]) k = some v := by
  induction d with
  | nil =>
    rw [List.nil_append, dictGet?_cons]
    simp
  | cons p tl ih =>
    obtain ⟨a, b⟩ := p
    rw [hasKey_cons] at hk
    have ha := Bool.or_eq_false_iff.mp hk
    rw [List.cons_append, dictGet?_cons, ha.1]
    simpa using ih ha.2

/-- `d[k] = v` makes a lookup of `k` return `v`. -/
theorem dictGet?_dictSet_same {V : Type} (d : DictObj V) (k : String) (v : V) :
    dictGet? (dictSet d k v) k = some v := by
  unfold dictSet
  by_cases hk : hasKey d k = true
  · rw [hk]
    simp only [if_true]
    exact dictGet?_map_overwrite d k v hk
  · rw [Bool.not_eq_true] at hk
    rw [hk]
    simp only [Bool.false_eq_true, if_false]
    exact dictGet?_append_single_self d k v hk

/-- `d[k] = v` leaves the lookup of every other name unchanged. -/
theorem dictGet?_dictSet_other {V : Type} (d : DictObj V) (k : String) (v : V)
    (n : String) (hn : n ≠ k) :
    dictGet? (dictSet d k v) n = dictGet? d n := by
  unfold dictSet
  split
  · exact dictGet?_map_other d k v n hn
  · exact dictGet?_append_single d k v n hn

/-! ## Lemmas about `as_pdf_object` -/

/-- The keys of the export over a run of categories are the namespace keys of
the non-empty ones, in the run's order. -/
theorem export_keys_aux {V : Type} (r : PdfResources V) (l : List ResourceType) :
    dictKeys (l.filterMap (fun k =>
        if (r.get k).isEmpty then none else some (k.value, r.get k)))
      = (l.filter (fun k => !(r.get k).isEmpty)).map ResourceType.value := by
  induction l with
  | nil => rfl
  | cons c tl ih =>
    by_cases h : (r.get c).isEmpty = true
    · simp [List.filterMap_cons, List.filter_cons, h, ih]
    · have h1 : (r.get c).isEmpty = false := by simpa using h
      simp [List.filterMap_cons, List.filter_cons, h1, dictKeys, ih]
      simpa [dictKeys] using ih

theorem export_lookup_mem_aux {V : Type} (r : PdfResources V) (c : ResourceType)
    (l : List ResourceType) (hmem : c ∈ l) (hne : (r.get c).isEmpty = false) :
    dictGet? (l.filterMap (fun k =>
        if (r.get k).isEmpty then none else some (k.value, r.get k))) c.value
      = some (r.get c) := by
  induction l with
  | nil => simp at hmem
  | cons c0 tl ih =>
    rcases List.mem_cons.mp hmem with h1 | h2
    · subst h1
      rw [List.filterMap_cons]
      simp only [hne, Bool.false_eq_true, if_false]
      rw [dictGet?_cons]
      simp
    · rw [List.filterMap_cons]
      by_cases h0 : (r.get c0).isEmpty = true
      · simp only [h0, if_true]
        exact ih h2
      · have h0f : (r.get c0).isEmpty = false := by simpa using h0
        simp only [h0f, Bool.false_eq_true, if_false]
        rw [dictGet?_cons]
        by_cases hv : c0.value = c.value
        · have : c0 = c := value_injective c0 c hv
          subst this
          simp
        · rw [beq_eq_false_iff_ne.mpr hv]
          simpa using ih h2

theorem export_lookup_empty_aux {V : Type} (r : PdfResources V) (c : ResourceType)
    (l : List ResourceType) (hemp : (r.get c).isEmpty = true) :
    dictGet? (l.filterMap (fun k =>
        if (r.get k).isEmpty then none else some (k.value, r.get k))) c.value
      = none := by
  induction l with
  | nil => rfl
  | cons c0 tl ih =>
    rw [List.filterMap_cons]
    by_cases h0 : (r.get c0).isEmpty = true
    · simp only [h0, if_true]
      exact ih
    · have h0f : (r.get c0).isEmpty = false := by simpa using h0
      simp only [h0f, Bool.false_eq_true, if_false]
      rw [dictGet?_cons]
      have hv : c0.value ≠ c.value := by
        intro hc
        have : c0 = c := value_injective c0 c hc
        subst this
        exact h0 hemp
      rw [beq_eq_false_iff_ne.mpr hv]
      simpa using ih

/-! ## Lemma about repeated `RawContent.render` calls -/

theorem renderRepeated_eq {V : Type} (self : RawContent V) (n : Nat) :
    self.renderRepeated n = (List.replicate n self.data, self) := by
  induction n with
  | zero => rfl
  | succ m ih =>
    rw [RawContent.renderRepeated]
    simp [RawContent.render, ih, List.replicate_succ]

/-! ## Claim theorems -/

/-- C1: for every pair of resource dictionaries `A` and `B` that are disjoint
(no resource name occurs in both `A`'s and `B`'s mapping of any single
category), merging `B` into `A` (`PdfResources.__iadd__`) succeeds without
error, and afterwards, for every category, `A`'s mapping is exactly the
entries it held before the merge followed by all entries of `B`'s mapping for
that category.  (`B` is unmodified: the merge only ever writes into its first
argument.)  The `Nodup` hypothesis is the key-uniqueness invariant of a
Python dictionary. -/
theorem C1_disjoint_merge_union {V : Type} (A B : PdfResources V)
    (hkeys : ∀ cat, (dictKeys (B.get cat)).Nodup)
    (hdisj : ∀ cat, ∀ p ∈ B.get cat, hasKey (A.get cat) p.1 = false) :
    (A.iadd B).2 = none ∧
    ∀ cat, (A.iadd B).1.get cat = A.get cat ++ B.get cat := by
  obtain ⟨self1, heq, hmer, _⟩ :=
    iaddAux_clean_front resourceTypeList [] A B resourceTypeList_nodup
      (fun cat _ => hkeys cat) (fun cat _ => hdisj cat)
  have hiadd : A.iadd B = (self1, none) := by
    unfold PdfResources.iadd
    rw [← List.append_nil resourceTypeList, heq]
    rfl
  rw [hiadd]
  exact ⟨rfl, fun cat => hmer cat (mem_resourceTypeList cat)⟩

/-- C1 witness: the theorem applied to the concrete disjoint pair
`exA`, `exD`. -/
theorem C1_disjoint_merge_union_witness :
    (exA.iadd exD).2 = none ∧
    ∀ cat, (exA.iadd exD).1.get cat = exA.get cat ++ exD.get cat :=
  C1_disjoint_merge_union exA exD (by decide) (by decide)

/-- C2 counterexample: the claim says the raised `ResourceManagementError`
carries enough information to identify both the offending category and the
offending name.  The two concrete merges below conflict in different
categories (`/ExtGState` for `exE1 += exE2`, `/Font` for `exF1 += exF2`,
each pair being disjoint in every other category), yet raise literally
identical errors, so no reading of the error can recover the category. -/
theorem C2_conflict_error_counterexample :
    (exE1.iadd exE2).2 = some (conflictMessage "x") ∧
    (exF1.iadd exF2).2 = some (conflictMessage "x") ∧
    (∀ cat, cat ≠ ResourceType.EXT_G_STATE →
      ∀ p ∈ exE2.get cat, hasKey (exE1.get cat) p.1 = false) ∧
    (∃ p ∈ exE2.get ResourceType.EXT_G_STATE,
      hasKey (exE1.get ResourceType.EXT_G_STATE) p.1 = true) ∧
    (∀ cat, cat ≠ ResourceType.FONT →
      ∀ p ∈ exF2.get cat, hasKey (exF1.get cat) p.1 = false) ∧
    (∃ p ∈ exF2.get ResourceType.FONT,
      hasKey (exF1.get ResourceType.FONT) p.1 = true) ∧
    ¬∃ identify : String → ResourceType,
        identify (conflictMessage "x") = ResourceType.EXT_G_STATE ∧
        identify (conflictMessage "x") = ResourceType.FONT := by
  refine ⟨by decide, by decide, by decide, by decide, by decide, by decide, ?_⟩
  rintro ⟨f, h1, h2⟩
  rw [h1] at h2
  exact absurd h2 (by decide)

/-- C2 amended: for every pair of resource dictionaries such that some
category and name have the name present in both mappings of that category,
merging `B` into `A` raises a `ResourceManagementError`, whose message
identifies the offending name — it equals `conflictMessage k` for a name `k`
occurring in `B`'s mapping of some category, and the message determines the
name uniquely — and `import_resources` propagates exactly that error; but the
error does not identify the offending category (see the counterexample). -/
theorem C2_conflict_error_amended {V : Type} (A B : PdfResources V)
    (hconf : ∃ cat : ResourceType, ∃ p ∈ B.get cat, hasKey (A.get cat) p.1 = true) :
    ∃ e : String,
      (A.iadd B).2 = some e ∧
      (∃ cat ∈ resourceTypeList, ∃ k ∈ dictKeys (B.get cat), e = conflictMessage k) ∧
      (∀ k k1 : String, conflictMessage k = conflictMessage k1 → k = k1) ∧
      (∀ box : BoxConstraints, ∀ w : Option Nat,
        ((PdfContent.mk A box w).import_resources B).2 = some e) := by
  obtain ⟨cat, p, hp, hkey⟩ := hconf
  have hsome : ((A.iadd B).2).isSome = true :=
    iaddAux_conflict_raises resourceTypeList A B resourceTypeList_nodup
      ⟨cat, mem_resourceTypeList cat, p, hp, hkey⟩
  obtain ⟨e, he⟩ := Option.isSome_iff_exists.mp hsome
  refine ⟨e, he, iaddAux_error_shape resourceTypeList A B e he,
    conflictMessage_injective, ?_⟩
  intro box w
  simpa [PdfContent.import_resources] using he

/-- C2 amended witness: the theorem applied to the concrete conflicting pair
`exE1`, `exE2`, whose graphics state mappings share the name `x`. -/
theorem C2_conflict_error_amended_witness :
    ∃ e : String,
      (exE1.iadd exE2).2 = some e ∧
      (∃ cat ∈ resourceTypeList, ∃ k ∈ dictKeys (exE2.get cat),
        e = conflictMessage k) ∧
      (∀ k k1 : String, conflictMessage k = conflictMessage k1 → k = k1) ∧
      (∀ box : BoxConstraints, ∀ w : Option Nat,
        ((PdfContent.mk exE1 box w).import_resources exE2).2 = some e) :=
  C2_conflict_error_amended exE1 exE2 (by decide)

/-- C3: for every pair of resource dictionaries whose only name conflicts lie
in a category `C` that is not the first in the fixed enumeration order,
merging `B` into `A` raises `ResourceManagementError`, and after the failed
merge every category strictly preceding `C` in enumeration order has `B`'s
entries fully merged into `A` (fail-fast, non-atomic: the partial mutation of
`A` persists on failure). -/
theorem C3_conflict_partial_merge {V : Type} (A B : PdfResources V)
    (pre : List ResourceType) (C : ResourceType) (post : List ResourceType)
    (hsplit : resourceTypeList = pre ++ C :: post)
    (_hpre : pre ≠ [])
    (hkeys : ∀ cat, (dictKeys (B.get cat)).Nodup)
    (hdisj : ∀ cat, cat ≠ C → ∀ p ∈ B.get cat, hasKey (A.get cat) p.1 = false)
    (hconf : ∃ p ∈ B.get C, hasKey (A.get C) p.1 = true) :
    (A.iadd B).2.isSome = true ∧
    ∀ cat ∈ pre, (A.iadd B).1.get cat = A.get cat ++ B.get cat := by
  have hnd : (pre ++ C :: post).Nodup := hsplit ▸ resourceTypeList_nodup
  have hprend : pre.Nodup := (List.nodup_append.mp hnd).1
  have hCpre : C ∉ pre := fun hmem =>
    (List.nodup_append.mp hnd).2.2 hmem (List.mem_cons_self _ _)
  have hpredisj : ∀ cat ∈ pre, ∀ p ∈ B.get cat, hasKey (A.get cat) p.1 = false :=
    fun cat hcat => hdisj cat (fun hcc => hCpre (hcc ▸ hcat))
  obtain ⟨self1, heq, hmer, hunch⟩ :=
    iaddAux_clean_front pre (C :: post) A B hprend (fun cat _ => hkeys cat) hpredisj
  have hC1 : self1.get C = A.get C := hunch C hCpre
  have herr : (res_merge_helper (self1.get C) (B.get C)).2.isSome = true := by
    rw [hC1]
    exact res_merge_helper_conflict _ _ hconf
  rcases hm : res_merge_helper (self1.get C) (B.get C) with ⟨d1, oe⟩
  cases oe with
  | none =>
    rw [hm] at herr
    simp at herr
  | some e0 =>
    have hiadd : A.iadd B = (self1.set C d1, some e0) := by
      unfold PdfResources.iadd
      rw [hsplit, heq, PdfResources.iaddAux, hm]
    rw [hiadd]
    refine ⟨rfl, ?_⟩
    intro cat hcat
    have hne : cat ≠ C := fun hcc => hCpre (hcc ▸ hcat)
    rw [get_set_ne self1 C cat d1 hne]
    exact hmer cat hcat

/-- C3 witness: the theorem applied to `exG`, `exH`, which conflict only in
the second category `/ColorSpace`; the `/ExtGState` entries are merged before
the error is raised. -/
theorem C3_conflict_partial_merge_witness :
    (exG.iadd exH).2.isSome = true ∧
    ∀ cat ∈ [ResourceType.EXT_G_STATE],
      (exG.iadd exH).1.get cat = exG.get cat ++ exH.get cat :=
  C3_conflict_partial_merge exG exH [ResourceType.EXT_G_STATE]
    ResourceType.COLOR_SPACE
    [ResourceType.PATTERN, ResourceType.SHADING, ResourceType.XOBJECT,
      ResourceType.FONT, ResourceType.PROPERTIES]
    (by decide) (by decide) (by decide) (by decide) (by decide)

/-- C5 (implicit): when a merge fails with a conflict in category `C`, the
merge is non-atomic even inside `C` itself — every pair of `B`'s mapping of
`C` iterated before the first conflicting name has already been inserted into
`A`'s mapping of `C` when the error is raised, and the error names that first
conflicting name. -/
theorem C5_partial_within_category {V : Type} (A B : PdfResources V)
    (pre : List ResourceType) (C : ResourceType) (post : List ResourceType)
    (d2a : DictObj V) (k : String) (v : V) (d2b : DictObj V)
    (hsplit : resourceTypeList = pre ++ C :: post)
    (hkeys : ∀ cat, (dictKeys (B.get cat)).Nodup)
    (hdisj : ∀ cat ∈ pre, ∀ p ∈ B.get cat, hasKey (A.get cat) p.1 = false)
    (hBC : B.get C = d2a ++ (k, v) :: d2b)
    (hclean : ∀ p ∈ d2a, hasKey (A.get C) p.1 = false)
    (hconf : hasKey (A.get C ++ d2a) k = true) :
    (A.iadd B).2 = some (conflictMessage k) ∧
    (A.iadd B).1.get C = A.get C ++ d2a := by
  have hnd : (pre ++ C :: post).Nodup := hsplit ▸ resourceTypeList_nodup
  have hprend : pre.Nodup := (List.nodup_append.mp hnd).1
  have hCpre : C ∉ pre := fun hmem =>
    (List.nodup_append.mp hnd).2.2 hmem (List.mem_cons_self _ _)
  have hd2and : (dictKeys d2a).Nodup := by
    have hC := hkeys C
    rw [hBC, dictKeys_append] at hC
    exact (List.nodup_append.mp hC).1
  obtain ⟨self1, heq, hmer, hunch⟩ :=
    iaddAux_clean_front pre (C :: post) A B hprend (fun cat _ => hkeys cat) hdisj
  have hC1 : self1.get C = A.get C := hunch C hCpre
  have hm : res_merge_helper (self1.get C) (B.get C)
      = (A.get C ++ d2a, some (conflictMessage k)) := by
    rw [hC1, hBC]
    exact res_merge_helper_at_conflict (A.get C) d2a k v d2b hd2and hclean hconf
  have hiadd : A.iadd B = (self1.set C (A.get C ++ d2a), some (conflictMessage k)) := by
    unfold PdfResources.iadd
    rw [hsplit, heq, PdfResources.iaddAux, hm]
  rw [hiadd]
  exact ⟨rfl, get_set_same self1 C _⟩

/-- C5 witness: the theorem applied to `exA`, `exB`: the conflict is on the
font name `x`, the second of `exB`'s font entries; the first (`a`) has
already been inserted into `exA`'s font mapping when the error is raised. -/
theorem C5_partial_within_category_witness :
    (exA.iadd exB).2 = some (conflictMessage "x") ∧
    (exA.iadd exB).1.get ResourceType.FONT
      = exA.get ResourceType.FONT ++ [("a", 9)] :=
  C5_partial_within_category exA exB
    [ResourceType.EXT_G_STATE, ResourceType.COLOR_SPACE, ResourceType.PATTERN,
      ResourceType.SHADING, ResourceType.XOBJECT]
    ResourceType.FONT [ResourceType.PROPERTIES]
    [("a", 9)] "x" 3 [("z", 4)]
    (by decide) (by decide) (by decide) (by decide) (by decide) (by decide)

/-- C4: for every resource dictionary, `as_pdf_object` returns a dictionary
whose keys are exactly the namespace keys of the categories with non-empty
mappings, each mapped to that category's mapping, with key order following
the fixed enumeration order regardless of insertion order; a freshly
constructed `PdfResources` with no entries exports to an empty dictionary. -/
theorem C4_export_deterministic {V : Type} (r : PdfResources V) :
    dictKeys r.as_pdf_object =
      (resourceTypeList.filter (fun k => !(r.get k).isEmpty)).map ResourceType.value ∧
    (∀ cat : ResourceType, dictGet? r.as_pdf_object cat.value =
      if (r.get cat).isEmpty then none else some (r.get cat)) ∧
    (PdfResources.new (V := V)).as_pdf_object = [] := by
  refine ⟨export_keys_aux r resourceTypeList, ?_, rfl⟩
  intro cat
  by_cases h : (r.get cat).isEmpty = true
  · rw [if_pos h]
    exact export_lookup_empty_aux r cat resourceTypeList h
  · have hf : (r.get cat).isEmpty = false := by simpa using h
    rw [if_neg h]
    exact export_lookup_mem_aux r cat resourceTypeList (mem_resourceTypeList cat) hf

/-- C6: for every content fragment whose render produces bytes `rendered` and
whose bounding box has width `w` and height `h`, `as_form_xobject` passes to
the external writer constructor exactly `rendered` as the body, `w` and `h`
as the dimensions, and the fragment's exported resource dictionary as the
resources; it makes exactly one render call and no registration call, and its
behaviour does not depend on whether the fragment's writer reference is
set. -/
theorem C6_as_form_xobject_shape {V : Type} (c : PdfContent V) (rendered : List Nat) :
    (c.as_form_xobject rendered).1 =
      { command_stream := rendered, box_width := c.box.width,
        box_height := c.box.height,
        stream_resources := c.resources.as_pdf_object } ∧
    (c.as_form_xobject rendered).2.countP
      (fun call => match call with | ExtCall.renderCall => true | _ => false) = 1 ∧
    ExtCall.registerWithWriterCall ∉ (c.as_form_xobject rendered).2 ∧
    (∀ w : Option Nat,
      PdfContent.as_form_xobject { c with writer := w } rendered
        = c.as_form_xobject rendered) := by
  refine ⟨rfl, ?_, ?_, fun w => rfl⟩
  · rfl
  · show ExtCall.registerWithWriterCall ∉
        [ExtCall.renderCall (V := V),
         ExtCall.initXObjectDictionaryCall rendered c.box.width c.box.height
           c.res.as_pdf_object]
    simp

/-- C7: a `RawContent` constructed with byte buffer `data` has `render`
return exactly `data`, unchanged, on every call: `n` successive calls all
return `data` and leave the object untouched. -/
theorem C7_raw_render_idempotent {V : Type} (data : List Nat)
    (resources : Option (PdfResources V)) (box : BoxConstraints) (n : Nat) :
    ((RawContent.new data resources box).renderRepeated n).1
      = List.replicate n data ∧
    ((RawContent.new data resources box).renderRepeated n).2
      = RawContent.new data resources box ∧
    ((RawContent.new data resources box).render).1 = data := by
  rw [renderRepeated_eq]
  exact ⟨rfl, rfl, rfl⟩

/-- C8: for every content fragment, category, name, and value, `set_resource`
never fails: it inserts `name -> value` into the owned resource dictionary's
mapping for that category, silently overwriting any existing value under that
pair, and leaves every other name in the category, every other category's
mapping, the box, and the writer unchanged. -/
theorem C8_set_resource_total {V : Type} (c : PdfContent V)
    (category : ResourceType) (name : String) (value : V) :
    dictGet? ((c.set_resource category name value).resources.get category) name
      = some value ∧
    (∀ n, n ≠ name →
      dictGet? ((c.set_resource category name value).resources.get category) n
        = dictGet? (c.resources.get category) n) ∧
    (∀ cat, cat ≠ category →
      (c.set_resource category name value).resources.get cat
        = c.resources.get cat) ∧
    (c.set_resource category name value).box = c.box ∧
    (c.set_resource category name value).writer = c.writer := by
  refine ⟨?_, ?_, ?_, rfl, rfl⟩
  · show dictGet?
        ((c.res.set category (dictSet (c.res.get category) name value)).get category)
        name = some value
    rw [get_set_same]
    exact dictGet?_dictSet_same _ name value
  · intro n hn
    show dictGet?
        ((c.res.set category (dictSet (c.res.get category) name value)).get category)
        n = _
    rw [get_set_same]
    exact dictGet?_dictSet_other _ name value n hn
  · intro cat hcat
    show (c.res.set category (dictSet (c.res.get category) name value)).get cat = _
    exact get_set_ne c.res category cat _ hcat

/-- C9: calling `render` on the abstract base `PdfContent` always signals
`NotImplementedError` rather than returning a value. -/
theorem C9_abstract_render_not_implemented {V : Type} (c : PdfContent V) :
    c.render = Except.error PdfContent.RenderError.notImplementedError := rfl

/-- C10: for every content fragment and writer context `w`, `set_writer w`
rebinds only the fragment's writer reference to `w`: the owned resource
dictionary (all category mappings) and the bounding box are unchanged. -/
theorem C10_set_writer_frame {V : Type} (c : PdfContent V) (w : Nat) :
    (c.set_writer w).writer = some w ∧
    (c.set_writer w).resources = c.resources ∧
    (∀ cat, (c.set_writer w).resources.get cat = c.resources.get cat) ∧
    (c.set_writer w).box = c.box :=
  ⟨rfl, rfl, fun _ => rfl, rfl⟩
